import Mathlib

/-!
Verification development for the bounded-buffer core of the
multithread-simulator repository (src/main.py).

The two buffer classes are embedded as pure state-transition functions.
Blocking is made explicit: an operation that would wait forever in a
quiescent schedule (no other thread changes the state and the stop signal
stays unset) returns `none`; an operation that completes returns
`some (result, newState)`.

The stop signal is a one-way flag set asynchronously by another thread.
Each bounded-timeout wait loop in the Python code observes it repeatedly;
the Boolean cancellation parameters below record, per wait loop, whether
the flag was observed set before that loop ever succeeded in acquiring
what it was waiting for.  This captures every control path of the source,
including the compensating-release early returns of the semaphore variant.
-/

set_option maxHeartbeats 1000000

/-- State of the class MonitorBuffer of src/main.py: the fixed capacity and
the Python list self.q.  The lock and the two condition variables carry no
state that survives a quiescent point, so they do not appear. -/
structure MonitorBuffer (α : Type) where
  capacity : Nat
  q : List α
deriving DecidableEq

/-- MonitorBuffer.__init__: stores the capacity as given and an empty list.
The source performs no validation of the capacity. -/
def MonitorBuffer.init {α : Type} (capacity : Nat) : MonitorBuffer α :=
  { capacity := capacity, q := [] }

/-- MonitorBuffer.produce.  Source:
while len(self.q) == self.capacity: if stop_event.is_set(): return False;
self.not_full.wait(timeout=0.2) -- then append and return True.
The parameter stopSet records whether the stop flag was observed set at one
of the loop checks; if the buffer is full and the flag is never observed set
the call waits forever (none).  When the buffer is not full the flag is
never consulted: the item is appended and the call returns True. -/
def MonitorBuffer.produce {α : Type} (b : MonitorBuffer α) (item : α)
    (stopSet : Bool) : Option (Bool × MonitorBuffer α) :=
  if b.q.length = b.capacity then
    if stopSet then some (false, b) else none
  else
    some (true, { b with q := b.q ++ [item] })

/-- MonitorBuffer.consume.  Source:
while len(self.q) == 0: if stop_event.is_set(): return None;
self.not_empty.wait(timeout=0.2) -- then item = self.q.pop(0); return item.
When the queue is non-empty the stop flag is never consulted. -/
def MonitorBuffer.consume {α : Type} (b : MonitorBuffer α)
    (stopSet : Bool) : Option (Option α × MonitorBuffer α) :=
  match b.q with
  | [] => if stopSet then some (none, b) else none
  | x :: rest => some (some x, { b with q := rest })

/-- State of the class SemaphoreBuffer of src/main.py: capacity, the list
self.q, and the counters of the three semaphores self.empty, self.full and
self.mutex. -/
structure SemaphoreBuffer (α : Type) where
  capacity : Nat
  q : List α
  empty : Nat
  full : Nat
  mutex : Nat
deriving DecidableEq

/-- SemaphoreBuffer.__init__: empty = Semaphore(capacity),
full = Semaphore(0), mutex = Semaphore(1), q = [].  The source performs no
validation of the capacity. -/
def SemaphoreBuffer.init {α : Type} (capacity : Nat) : SemaphoreBuffer α :=
  { capacity := capacity, q := [], empty := capacity, full := 0, mutex := 1 }

/-- SemaphoreBuffer.produce.  Source: a while/else loop acquiring
self.empty with a bounded timeout (return False from the else branch when
the stop flag is observed set before the acquire succeeds), then the same
loop for self.mutex (on cancellation there, release the already acquired
empty permit and return False), then append, release mutex, release full,
return True.  c1 and c2 record whether the stop flag was observed set
during the first and the second acquire loop. -/
def SemaphoreBuffer.produce {α : Type} (b : SemaphoreBuffer α) (item : α)
    (c1 c2 : Bool) : Option (Bool × SemaphoreBuffer α) :=
  if c1 then
    some (false, b)
  else if b.empty = 0 then
    none
  else
    let b1 : SemaphoreBuffer α := { b with empty := b.empty - 1 }
    if c2 then
      some (false, { b1 with empty := b1.empty + 1 })
    else if b1.mutex = 0 then
      none
    else
      let b2 : SemaphoreBuffer α :=
        { b1 with mutex := b1.mutex - 1, q := b1.q ++ [item] }
      some (true, { b2 with mutex := b2.mutex + 1, full := b2.full + 1 })

/-- SemaphoreBuffer.consume.  Source: acquire self.full (return None on
cancellation), acquire self.mutex (on cancellation release the full permit
back and return None), then item = None; if len(self.q) != 0:
item = self.q.pop(0); release mutex; release empty; return item.
The defensive len check of the source is kept as the match on the queue. -/
def SemaphoreBuffer.consume {α : Type} (b : SemaphoreBuffer α)
    (c1 c2 : Bool) : Option (Option α × SemaphoreBuffer α) :=
  if c1 then
    some (none, b)
  else if b.full = 0 then
    none
  else
    let b1 : SemaphoreBuffer α := { b with full := b.full - 1 }
    if c2 then
      some (none, { b1 with full := b1.full + 1 })
    else if b1.mutex = 0 then
      none
    else
      let b2 : SemaphoreBuffer α := { b1 with mutex := b1.mutex - 1 }
      match b2.q with
      | [] => some (none, { b2 with mutex := b2.mutex + 1, empty := b2.empty + 1 })
      | x :: rest =>
        some (some x, { b2 with q := rest, mutex := b2.mutex + 1, empty := b2.empty + 1 })

/-- One operation requested by a worker: a Put of an item or a Get. -/
inductive BufOp (α : Type) where
  | put : α → BufOp α
  | get : BufOp α
deriving DecidableEq

/-- Externally observable result of one operation: for a Put the accepted
item (or none when not accepted), for a Get the removed item (or none on
failure). -/
inductive BufRes (α : Type) where
  | put : Option α → BufRes α
  | get : Option α → BufRes α
deriving DecidableEq

/-- Prepends one result to the result list of a run that did not block. -/
def consRes {α β : Type} (r : BufRes α) :
    Option (List (BufRes α) × β) → Option (List (BufRes α) × β)
  | none => none
  | some (rs, bf) => some (r :: rs, bf)

/-- Runs a sequence of operations on a MonitorBuffer, each paired with its
observed stop flag; none when some operation blocks forever. -/
def MonitorBuffer.run {α : Type} (b : MonitorBuffer α) :
    List (BufOp α × Bool) → Option (List (BufRes α) × MonitorBuffer α)
  | [] => some ([], b)
  | (BufOp.put x, c) :: rest =>
    match b.produce x c with
    | none => none
    | some (ok, b1) =>
      consRes (BufRes.put (if ok then some x else none)) (b1.run rest)
  | (BufOp.get, c) :: rest =>
    match b.consume c with
    | none => none
    | some (r, b1) => consRes (BufRes.get r) (b1.run rest)

/-- Runs a sequence of operations on a SemaphoreBuffer, each paired with
its two observed stop flags. -/
def SemaphoreBuffer.run {α : Type} (b : SemaphoreBuffer α) :
    List (BufOp α × Bool × Bool) → Option (List (BufRes α) × SemaphoreBuffer α)
  | [] => some ([], b)
  | (BufOp.put x, c1, c2) :: rest =>
    match b.produce x c1 c2 with
    | none => none
    | some (ok, b1) =>
      consRes (BufRes.put (if ok then some x else none)) (b1.run rest)
  | (BufOp.get, c1, c2) :: rest =>
    match b.consume c1 c2 with
    | none => none
    | some (r, b1) => consRes (BufRes.get r) (b1.run rest)

/-- A trace in which every wait loop runs with the stop signal unset. -/
def noStopM {α : Type} (ops : List (BufOp α)) : List (BufOp α × Bool) :=
  ops.map (fun o => (o, false))

/-- A trace in which every wait loop runs with the stop signal unset. -/
def noStopS {α : Type} (ops : List (BufOp α)) : List (BufOp α × Bool × Bool) :=
  ops.map (fun o => (o, false, false))

/-- Items accepted by the successful Puts of a run, in order. -/
def putsOf {α : Type} : List (BufRes α) → List α
  | [] => []
  | BufRes.put (some x) :: rs => x :: putsOf rs
  | BufRes.put none :: rs => putsOf rs
  | BufRes.get _ :: rs => putsOf rs

/-- Items delivered by the successful Gets of a run, in order. -/
def getsOf {α : Type} : List (BufRes α) → List α
  | [] => []
  | BufRes.get (some x) :: rs => x :: getsOf rs
  | BufRes.get none :: rs => getsOf rs
  | BufRes.put _ :: rs => getsOf rs

/-- Number of successful Puts of a run, mirroring self.produced_count of
the simulator, which a producer worker increments once per accepted Put. -/
def produced_count {α : Type} (rs : List (BufRes α)) : Nat :=
  (putsOf rs).length

/-- Number of successful Gets of a run, mirroring self.consumed_count of
the simulator, which a consumer worker increments once per delivered Get. -/
def consumed_count {α : Type} (rs : List (BufRes α)) : Nat :=
  (getsOf rs).length

/-- The structural invariant of a quiescent SemaphoreBuffer: the empty
permits together with the held items account for the capacity, the full
permits count the items, and the mutex is free. -/
abbrev SemInv {α : Type} (b : SemaphoreBuffer α) : Prop :=
  b.empty + b.q.length = b.capacity ∧ b.full = b.q.length ∧ b.mutex = 1

/-- Simulation relation between the two variants: same capacity, same
queue contents, and the semaphore side in its quiescent invariant. -/
def MSRel {α : Type} (m : MonitorBuffer α) (s : SemaphoreBuffer α) : Prop :=
  m.capacity = s.capacity ∧ m.q = s.q ∧ SemInv s

/-- Relation between the outcomes of two runs: both block, or both return
with equal result lists and related final states. -/
def RunsRel {α : Type} :
    Option (List (BufRes α) × MonitorBuffer α) →
      Option (List (BufRes α) × SemaphoreBuffer α) → Prop
  | none, none => True
  | some (rs, bf), some (rs2, bf2) => rs = rs2 ∧ MSRel bf bf2
  | _, _ => False

/-- Claim C1, counterexample.  A single Put attempted with the stop signal
set, on an empty buffer of capacity 1, is accepted by MonitorBuffer (final
contents [5]) but rejected by SemaphoreBuffer (final contents []), so the
two implementations do not return identical externally observable results
for every pattern of stop-signal settings. -/
theorem monitor_semaphore_diverge_on_stop :
    (MonitorBuffer.init 1 : MonitorBuffer Nat).run [(BufOp.put 5, true)] =
      some ([BufRes.put (some 5)], ⟨1, [5]⟩) ∧
    (SemaphoreBuffer.init 1 : SemaphoreBuffer Nat).run [(BufOp.put 5, true, false)] =
      some ([BufRes.put none], ⟨1, [], 1, 0, 1⟩) := by decide

/-- Claim C2, counterexample.  With the stop signal set, MonitorBuffer
still accepts a Put into a non-full buffer and still serves a Get from a
non-empty buffer: its stop check sits inside the wait loop and is never
reached when space or an item is available. -/
theorem monitor_put_accepts_after_stop :
    (MonitorBuffer.init 1 : MonitorBuffer Nat).produce 5 true =
      some (true, ⟨1, [5]⟩) ∧
    (⟨1, [3]⟩ : MonitorBuffer Nat).consume true =
      some (some 3, ⟨1, []⟩) := by decide

/-- Claim C2, amended.  Once the stop signal is set, SemaphoreBuffer
rejects every Put (returns false) and fails every Get (returns none)
regardless of free space or available items, leaving the state unchanged;
MonitorBuffer, by contrast, rejects a Put only when the buffer is full and
fails a Get only when the buffer is empty, and otherwise still completes
the operation normally. -/
theorem stop_behavior_by_variant :
    ∀ (b : SemaphoreBuffer Nat) (m : MonitorBuffer Nat) (x : Nat) (c2 : Bool),
    b.produce x true c2 = some (false, b) ∧
    b.consume true c2 = some (none, b) ∧
    m.produce x true =
      (if m.q.length = m.capacity then some (false, m)
       else some (true, { m with q := m.q ++ [x] })) ∧
    m.consume true =
      (match m.q with
       | [] => some (none, m)
       | y :: rest => some (some y, { m with q := rest })) := by
  intro b m x c2
  refine ⟨rfl, rfl, ?_, ?_⟩
  · by_cases hfull : m.q.length = m.capacity <;>
      simp [MonitorBuffer.produce, hfull]
  · cases hq : m.q <;> simp [MonitorBuffer.consume, hq]

/-- Claim C5, counterexample.  After one successful Put on a fresh buffer
of capacity 1 the semaphore counters are empty = 0 and full = 1 with one
item held, so empty + full + length = 2, not the capacity 1: the stated
three-way sum is violated at every non-empty reachable state. -/
theorem permit_sum_spec_false :
    (SemaphoreBuffer.init 1 : SemaphoreBuffer Nat).produce 7 false false =
      some (true, ⟨1, [7], 0, 1, 1⟩) ∧
    ¬ ((⟨1, [7], 0, 1, 1⟩ : SemaphoreBuffer Nat).empty
        + (⟨1, [7], 0, 1, 1⟩ : SemaphoreBuffer Nat).full
        + (⟨1, [7], 0, 1, 1⟩ : SemaphoreBuffer Nat).q.length
        = (⟨1, [7], 0, 1, 1⟩ : SemaphoreBuffer Nat).capacity) := by decide

/-- Claim C7, counterexample.  Construction with capacity 0 is not
rejected: both constructors return a buffer that stores capacity 0, and
operations on it proceed (a Put on the capacity-0 MonitorBuffer behaves as
a Put on a full buffer and returns false once the stop signal is set). -/
theorem capacity_zero_not_rejected :
    (MonitorBuffer.init 0 : MonitorBuffer Nat) = ⟨0, []⟩ ∧
    (SemaphoreBuffer.init 0 : SemaphoreBuffer Nat) = ⟨0, [], 0, 0, 1⟩ ∧
    (MonitorBuffer.init 0 : MonitorBuffer Nat).produce 1 true =
      some (false, ⟨0, []⟩) := by decide

/-- Claim C7, amended.  Neither constructor validates the capacity: for
every capacity value, including 0, construction succeeds and stores the
capacity as given, with an empty queue (and, for the semaphore variant,
empty = capacity, full = 0, mutex = 1). -/
theorem init_stores_capacity_unvalidated :
    ∀ (c : Nat),
    (MonitorBuffer.init c : MonitorBuffer Nat) = ⟨c, []⟩ ∧
    (SemaphoreBuffer.init c : SemaphoreBuffer Nat) = ⟨c, [], c, 0, 1⟩ := by
  intro c
  exact ⟨rfl, rfl⟩

/-- Claim C9.  Capacity-3 scenario, for both variants: the first three
Puts (items 1, 2, 3 standing for A1, A2, A3) succeed and fill the buffer
to [1, 2, 3]; a fourth Put blocks; one Get then returns item 1, after
which the retried Put of item 4 succeeds, leaving contents [2, 3, 4]. -/
theorem scenario_capacity_three :
    (MonitorBuffer.init 3 : MonitorBuffer Nat).run
        (noStopM [BufOp.put 1, BufOp.put 2, BufOp.put 3]) =
      some ([BufRes.put (some 1), BufRes.put (some 2), BufRes.put (some 3)],
        ⟨3, [1, 2, 3]⟩) ∧
    (⟨3, [1, 2, 3]⟩ : MonitorBuffer Nat).produce 4 false = none ∧
    (⟨3, [1, 2, 3]⟩ : MonitorBuffer Nat).consume false =
      some (some 1, ⟨3, [2, 3]⟩) ∧
    (⟨3, [2, 3]⟩ : MonitorBuffer Nat).produce 4 false =
      some (true, ⟨3, [2, 3, 4]⟩) ∧
    (SemaphoreBuffer.init 3 : SemaphoreBuffer Nat).run
        (noStopS [BufOp.put 1, BufOp.put 2, BufOp.put 3]) =
      some ([BufRes.put (some 1), BufRes.put (some 2), BufRes.put (some 3)],
        ⟨3, [1, 2, 3], 0, 3, 1⟩) ∧
    (⟨3, [1, 2, 3], 0, 3, 1⟩ : SemaphoreBuffer Nat).produce 4 false false = none ∧
    (⟨3, [1, 2, 3], 0, 3, 1⟩ : SemaphoreBuffer Nat).consume false false =
      some (some 1, ⟨3, [2, 3], 1, 2, 1⟩) ∧
    (⟨3, [2, 3], 1, 2, 1⟩ : SemaphoreBuffer Nat).produce 4 false false =
      some (true, ⟨3, [2, 3, 4], 0, 3, 1⟩) := by decide

/-- Claim C6.  Whenever a Put returns not-accepted, on either variant, the
resulting state equals the state before the call: in particular the queue
contents and length are unchanged (for the semaphore variant the
compensating release restores the decremented empty counter exactly). -/
theorem rejected_put_leaves_state_unchanged :
    (∀ (m : MonitorBuffer Nat) (x : Nat) (c : Bool) (m2 : MonitorBuffer Nat),
        m.produce x c = some (false, m2) → m2 = m) ∧
    (∀ (b : SemaphoreBuffer Nat) (x : Nat) (c1 c2 : Bool)
        (b2 : SemaphoreBuffer Nat),
        b.produce x c1 c2 = some (false, b2) → b2 = b) := by
  constructor
  · intro m x c m2 h
    by_cases hfull : m.q.length = m.capacity
    · cases c
      · simp [MonitorBuffer.produce, hfull] at h
      · simp [MonitorBuffer.produce, hfull] at h
        exact h.symm
    · simp [MonitorBuffer.produce, hfull] at h
  · intro b x c1 c2 b2 h
    cases c1
    · by_cases he : b.empty = 0
      · simp [SemaphoreBuffer.produce, he] at h
      · cases c2
        · by_cases hm : b.mutex = 0
          · simp [SemaphoreBuffer.produce, he, hm] at h
          · simp [SemaphoreBuffer.produce, he, hm] at h
        · simp [SemaphoreBuffer.produce, he] at h
          have hee : b.empty - 1 + 1 = b.empty := by omega
          rw [hee] at h
          cases b
          simp at h
          exact h.symm
    · simp [SemaphoreBuffer.produce] at h
      exact h.symm

/-- Witness for rejected_put_leaves_state_unchanged, at the compensating
release path of the semaphore variant: a Put cancelled between the two
acquires leaves the state ⟨2, [5], 1, 1, 1⟩ unchanged. -/
theorem rejected_put_leaves_state_unchanged_witness :
    (⟨2, [5], 1, 1, 1⟩ : SemaphoreBuffer Nat).produce 9 false true =
      some (false, ⟨2, [5], 1, 1, 1⟩) ∧
    (⟨2, [5], 1, 1, 1⟩ : SemaphoreBuffer Nat) = ⟨2, [5], 1, 1, 1⟩ :=
  ⟨by decide,
    rejected_put_leaves_state_unchanged.2 ⟨2, [5], 1, 1, 1⟩ 9 false true
      ⟨2, [5], 1, 1, 1⟩ (by decide)⟩

/-- Shape of a completed MonitorBuffer.produce call: the capacity is kept;
a rejected Put leaves the queue unchanged; an accepted Put appends the
item and can only happen when the buffer was not full. -/
lemma monitor_produce_spec {α : Type} (b : MonitorBuffer α) (x : α)
    (c : Bool) (ok : Bool) (b2 : MonitorBuffer α)
    (h : b.produce x c = some (ok, b2)) :
    b2.capacity = b.capacity ∧
      ((ok = false ∧ b2.q = b.q) ∨
        (ok = true ∧ b2.q = b.q ++ [x] ∧ b.q.length ≠ b.capacity)) := by
  by_cases hfull : b.q.length = b.capacity
  · cases c
    · simp [MonitorBuffer.produce, hfull] at h
    · simp [MonitorBuffer.produce, hfull] at h
      obtain ⟨rfl, rfl⟩ := h
      exact ⟨rfl, Or.inl ⟨rfl, rfl⟩⟩
  · simp [MonitorBuffer.produce, hfull] at h
    obtain ⟨rfl, rfl⟩ := h
    exact ⟨rfl, Or.inr ⟨rfl, rfl, hfull⟩⟩

/-- Shape of a completed MonitorBuffer.consume call: the capacity is kept;
a failed Get leaves the queue unchanged; a successful Get removes and
returns the head of the queue. -/
lemma monitor_consume_spec {α : Type} (b : MonitorBuffer α) (c : Bool)
    (r : Option α) (b2 : MonitorBuffer α)
    (h : b.consume c = some (r, b2)) :
    b2.capacity = b.capacity ∧
      ((r = none ∧ b2.q = b.q) ∨
        ∃ y t, b.q = y :: t ∧ r = some y ∧ b2.q = t) := by
  cases hq : b.q with
  | nil =>
    cases c
    · simp [MonitorBuffer.consume, hq] at h
    · simp [MonitorBuffer.consume, hq] at h
      obtain ⟨rfl, rfl⟩ := h
      exact ⟨rfl, Or.inl ⟨rfl, hq⟩⟩
  | cons y t =>
    simp [MonitorBuffer.consume, hq] at h
    obtain ⟨rfl, rfl⟩ := h
    exact ⟨rfl, Or.inr ⟨y, t, rfl, rfl, rfl⟩⟩

/-- Shape of a completed SemaphoreBuffer.produce call: the capacity is
kept; a rejected Put leaves the queue unchanged; an accepted Put appends
the item. -/
lemma sem_produce_spec {α : Type} (b : SemaphoreBuffer α) (x : α)
    (c1 c2 : Bool) (ok : Bool) (b2 : SemaphoreBuffer α)
    (h : b.produce x c1 c2 = some (ok, b2)) :
    b2.capacity = b.capacity ∧
      ((ok = false ∧ b2.q = b.q) ∨ (ok = true ∧ b2.q = b.q ++ [x])) := by
  cases c1
  · by_cases he : b.empty = 0
    · simp [SemaphoreBuffer.produce, he] at h
    · cases c2
      · by_cases hm : b.mutex = 0
        · simp [SemaphoreBuffer.produce, he, hm] at h
        · simp [SemaphoreBuffer.produce, he, hm] at h
          obtain ⟨rfl, rfl⟩ := h
          exact ⟨rfl, Or.inr ⟨rfl, rfl⟩⟩
      · simp [SemaphoreBuffer.produce, he] at h
        obtain ⟨rfl, rfl⟩ := h
        exact ⟨rfl, Or.inl ⟨rfl, rfl⟩⟩
  · simp [SemaphoreBuffer.produce] at h
    obtain ⟨rfl, rfl⟩ := h
    exact ⟨rfl, Or.inl ⟨rfl, rfl⟩⟩

/-- Shape of a completed SemaphoreBuffer.consume call: the capacity is
kept; a failed Get (cancellation, or the defensive branch on an empty
queue) leaves the queue unchanged; a successful Get removes and returns
the head of the queue. -/
lemma sem_consume_spec {α : Type} (b : SemaphoreBuffer α) (c1 c2 : Bool)
    (r : Option α) (b2 : SemaphoreBuffer α)
    (h : b.consume c1 c2 = some (r, b2)) :
    b2.capacity = b.capacity ∧
      ((r = none ∧ b2.q = b.q) ∨
        ∃ y t, b.q = y :: t ∧ r = some y ∧ b2.q = t) := by
  cases c1
  · by_cases hf : b.full = 0
    · simp [SemaphoreBuffer.consume, hf] at h
    · cases c2
      · by_cases hm : b.mutex = 0
        · simp [SemaphoreBuffer.consume, hf, hm] at h
        · cases hq : b.q with
          | nil =>
            simp [SemaphoreBuffer.consume, hf, hm, hq] at h
            obtain ⟨rfl, rfl⟩ := h
            exact ⟨rfl, Or.inl ⟨rfl, rfl⟩⟩
          | cons y t =>
            simp [SemaphoreBuffer.consume, hf, hm, hq] at h
            obtain ⟨rfl, rfl⟩ := h
            exact ⟨rfl, Or.inr ⟨y, t, rfl, rfl, rfl⟩⟩
      · simp [SemaphoreBuffer.consume, hf] at h
        obtain ⟨rfl, rfl⟩ := h
        exact ⟨rfl, Or.inl ⟨rfl, rfl⟩⟩
  · simp [SemaphoreBuffer.consume] at h
    obtain ⟨rfl, rfl⟩ := h
    exact ⟨rfl, Or.inl ⟨rfl, rfl⟩⟩

/-- A completed SemaphoreBuffer.produce call preserves the quiescent
semaphore invariant, on the success path as well as on both cancellation
early returns (the second of which performs the compensating release of
the already acquired empty permit). -/
lemma semInv_produce {α : Type} (b : SemaphoreBuffer α) (x : α)
    (c1 c2 : Bool) (ok : Bool) (b2 : SemaphoreBuffer α) (hb : SemInv b)
    (h : b.produce x c1 c2 = some (ok, b2)) : SemInv b2 := by
  obtain ⟨h1, h2, h3⟩ := hb
  cases c1
  · by_cases he : b.empty = 0
    · simp [SemaphoreBuffer.produce, he] at h
    · cases c2
      · by_cases hm : b.mutex = 0
        · simp [SemaphoreBuffer.produce, he, hm] at h
        · simp [SemaphoreBuffer.produce, he, hm] at h
          obtain ⟨rfl, rfl⟩ := h
          refine ⟨?_, ?_, ?_⟩ <;> simp <;> omega
      · simp [SemaphoreBuffer.produce, he] at h
        obtain ⟨rfl, rfl⟩ := h
        refine ⟨?_, ?_, ?_⟩ <;> simp <;> omega
  · simp [SemaphoreBuffer.produce] at h
    obtain ⟨rfl, rfl⟩ := h
    exact ⟨h1, h2, h3⟩

/-- A completed SemaphoreBuffer.consume call preserves the quiescent
semaphore invariant, on every path, including the compensating release of
the full permit on cancellation and the defensive empty-queue branch. -/
lemma semInv_consume {α : Type} (b : SemaphoreBuffer α)
    (c1 c2 : Bool) (r : Option α) (b2 : SemaphoreBuffer α) (hb : SemInv b)
    (h : b.consume c1 c2 = some (r, b2)) : SemInv b2 := by
  obtain ⟨h1, h2, h3⟩ := hb
  cases c1
  · by_cases hf : b.full = 0
    · simp [SemaphoreBuffer.consume, hf] at h
    · cases c2
      · by_cases hm : b.mutex = 0
        · simp [SemaphoreBuffer.consume, hf, hm] at h
        · cases hq : b.q with
          | nil =>
            rw [hq] at h2
            simp at h2
            exact absurd h2 hf
          | cons y t =>
            simp [SemaphoreBuffer.consume, hf, hm, hq] at h
            obtain ⟨rfl, rfl⟩ := h
            rw [hq] at h1 h2
            refine ⟨?_, ?_, ?_⟩ <;> simp <;> simp at h1 h2 <;> omega
      · simp [SemaphoreBuffer.consume, hf] at h
        obtain ⟨rfl, rfl⟩ := h
        refine ⟨?_, ?_, ?_⟩ <;> simp <;> omega
  · simp [SemaphoreBuffer.consume] at h
    obtain ⟨rfl, rfl⟩ := h
    exact ⟨h1, h2, h3⟩

/-- Every completed run of a MonitorBuffer satisfies: the delivered items
followed by the remaining queue equal the initial queue followed by the
accepted items (global FIFO, no loss, no duplication); the capacity is
kept; and the length bound is preserved. -/
lemma monitor_run_spec {α : Type} :
    ∀ (tr : List (BufOp α × Bool)) (b : MonitorBuffer α)
      (rs : List (BufRes α)) (bf : MonitorBuffer α),
    b.run tr = some (rs, bf) →
    getsOf rs ++ bf.q = b.q ++ putsOf rs ∧ bf.capacity = b.capacity ∧
      (b.q.length ≤ b.capacity → bf.q.length ≤ bf.capacity) := by
  intro tr
  induction tr with
  | nil =>
    intro b rs bf h
    simp only [MonitorBuffer.run, Option.some.injEq, Prod.mk.injEq] at h
    obtain ⟨rfl, rfl⟩ := h
    exact ⟨by simp [getsOf, putsOf], rfl, fun hh => hh⟩
  | cons step rest ih =>
    obtain ⟨op, c⟩ := step
    intro b rs bf h
    cases op with
    | put x =>
      simp only [MonitorBuffer.run] at h
      cases hp : b.produce x c with
      | none => rw [hp] at h; simp at h
      | some pr =>
        obtain ⟨ok, b1⟩ := pr
        rw [hp] at h
        dsimp only at h
        cases hrun : b1.run rest with
        | none => rw [hrun] at h; simp [consRes] at h
        | some pr2 =>
          obtain ⟨rs1, bf1⟩ := pr2
          rw [hrun] at h
          simp only [consRes, Option.some.injEq, Prod.mk.injEq] at h
          obtain ⟨rfl, rfl⟩ := h
          obtain ⟨hcap, hdis⟩ := monitor_produce_spec b x c ok b1 hp
          obtain ⟨ihEq, ihCap, ihLen⟩ := ih b1 rs1 bf1 hrun
          rcases hdis with ⟨rfl, hq⟩ | ⟨rfl, hq, hne⟩
          · refine ⟨?_, ihCap.trans hcap, ?_⟩
            · rw [hq] at ihEq
              simpa [getsOf, putsOf] using ihEq
            · intro hlen
              apply ihLen
              rw [hq, hcap]
              exact hlen
          · refine ⟨?_, ihCap.trans hcap, ?_⟩
            · rw [hq] at ihEq
              simpa [getsOf, putsOf, List.append_assoc] using ihEq
            · intro hlen
              apply ihLen
              rw [hq, hcap]
              simp
              omega
    | get =>
      simp only [MonitorBuffer.run] at h
      cases hp : b.consume c with
      | none => rw [hp] at h; simp at h
      | some pr =>
        obtain ⟨r, b1⟩ := pr
        rw [hp] at h
        dsimp only at h
        cases hrun : b1.run rest with
        | none => rw [hrun] at h; simp [consRes] at h
        | some pr2 =>
          obtain ⟨rs1, bf1⟩ := pr2
          rw [hrun] at h
          simp only [consRes, Option.some.injEq, Prod.mk.injEq] at h
          obtain ⟨rfl, rfl⟩ := h
          obtain ⟨hcap, hdis⟩ := monitor_consume_spec b c r b1 hp
          obtain ⟨ihEq, ihCap, ihLen⟩ := ih b1 rs1 bf1 hrun
          rcases hdis with ⟨rfl, hq⟩ | ⟨y, t, hbq, rfl, hq⟩
          · refine ⟨?_, ihCap.trans hcap, ?_⟩
            · rw [hq] at ihEq
              simpa [getsOf, putsOf] using ihEq
            · intro hlen
              apply ihLen
              rw [hq, hcap]
              exact hlen
          · refine ⟨?_, ihCap.trans hcap, ?_⟩
            · rw [hq] at ihEq
              simp [getsOf, putsOf, hbq, ihEq]
            · intro hlen
              apply ihLen
              rw [hq, hcap]
              rw [hbq] at hlen
              simp at hlen
              omega

/-- Every completed run of a SemaphoreBuffer satisfies: the delivered
items followed by the remaining queue equal the initial queue followed by
the accepted items (global FIFO, no loss, no duplication); the capacity is
kept; and the quiescent semaphore invariant is preserved. -/
lemma sem_run_spec {α : Type} :
    ∀ (tr : List (BufOp α × Bool × Bool)) (b : SemaphoreBuffer α)
      (rs : List (BufRes α)) (bf : SemaphoreBuffer α),
    b.run tr = some (rs, bf) →
    getsOf rs ++ bf.q = b.q ++ putsOf rs ∧ bf.capacity = b.capacity ∧
      (SemInv b → SemInv bf) := by
  intro tr
  induction tr with
  | nil =>
    intro b rs bf h
    simp only [SemaphoreBuffer.run, Option.some.injEq, Prod.mk.injEq] at h
    obtain ⟨rfl, rfl⟩ := h
    exact ⟨by simp [getsOf, putsOf], rfl, fun hh => hh⟩
  | cons step rest ih =>
    obtain ⟨op, c1, c2⟩ := step
    intro b rs bf h
    cases op with
    | put x =>
      simp only [SemaphoreBuffer.run] at h
      cases hp : b.produce x c1 c2 with
      | none => rw [hp] at h; simp at h
      | some pr =>
        obtain ⟨ok, b1⟩ := pr
        rw [hp] at h
        dsimp only at h
        cases hrun : b1.run rest with
        | none => rw [hrun] at h; simp [consRes] at h
        | some pr2 =>
          obtain ⟨rs1, bf1⟩ := pr2
          rw [hrun] at h
          simp only [consRes, Option.some.injEq, Prod.mk.injEq] at h
          obtain ⟨rfl, rfl⟩ := h
          obtain ⟨hcap, hdis⟩ := sem_produce_spec b x c1 c2 ok b1 hp
          obtain ⟨ihEq, ihCap, ihInv⟩ := ih b1 rs1 bf1 hrun
          rcases hdis with ⟨rfl, hq⟩ | ⟨rfl, hq⟩
          · refine ⟨?_, ihCap.trans hcap, ?_⟩
            · rw [hq] at ihEq
              simpa [getsOf, putsOf] using ihEq
            · intro hinv
              exact ihInv (semInv_produce b x c1 c2 false b1 hinv hp)
          · refine ⟨?_, ihCap.trans hcap, ?_⟩
            · rw [hq] at ihEq
              simpa [getsOf, putsOf, List.append_assoc] using ihEq
            · intro hinv
              exact ihInv (semInv_produce b x c1 c2 true b1 hinv hp)
    | get =>
      simp only [SemaphoreBuffer.run] at h
      cases hp : b.consume c1 c2 with
      | none => rw [hp] at h; simp at h
      | some pr =>
        obtain ⟨r, b1⟩ := pr
        rw [hp] at h
        dsimp only at h
        cases hrun : b1.run rest with
        | none => rw [hrun] at h; simp [consRes] at h
        | some pr2 =>
          obtain ⟨rs1, bf1⟩ := pr2
          rw [hrun] at h
          simp only [consRes, Option.some.injEq, Prod.mk.injEq] at h
          obtain ⟨rfl, rfl⟩ := h
          obtain ⟨hcap, hdis⟩ := sem_consume_spec b c1 c2 r b1 hp
          obtain ⟨ihEq, ihCap, ihInv⟩ := ih b1 rs1 bf1 hrun
          rcases hdis with ⟨rfl, hq⟩ | ⟨y, t, hbq, rfl, hq⟩
          · refine ⟨?_, ihCap.trans hcap, ?_⟩
            · rw [hq] at ihEq
              simpa [getsOf, putsOf] using ihEq
            · intro hinv
              exact ihInv (semInv_consume b c1 c2 none b1 hinv hp)
          · refine ⟨?_, ihCap.trans hcap, ?_⟩
            · rw [hq] at ihEq
              simp [getsOf, putsOf, hbq, ihEq]
            · intro hinv
              exact ihInv (semInv_consume b c1 c2 (some y) b1 hinv hp)

/-- Unfolds one step of a no-stop monitor trace. -/
lemma noStopM_cons {α : Type} (o : BufOp α) (ops : List (BufOp α)) :
    noStopM (o :: ops) = (o, false) :: noStopM ops := rfl

/-- Unfolds one step of a no-stop semaphore trace. -/
lemma noStopS_cons {α : Type} (o : BufOp α) (ops : List (BufOp α)) :
    noStopS (o :: ops) = (o, false, false) :: noStopS ops := rfl

/-- Prepending the same result to two related run outcomes keeps them
related. -/
lemma runsRel_consRes {α : Type} (r : BufRes α)
    (o1 : Option (List (BufRes α) × MonitorBuffer α))
    (o2 : Option (List (BufRes α) × SemaphoreBuffer α))
    (h : RunsRel o1 o2) : RunsRel (consRes r o1) (consRes r o2) := by
  rcases o1 with _ | ⟨rs, bf⟩ <;> rcases o2 with _ | ⟨rs2, bf2⟩
  · trivial
  · exact h.elim
  · exact h.elim
  · exact ⟨by rw [h.1], h.2⟩

/-- Related run outcomes project to the same observable pair of results
and final queue contents. -/
lemma runsRel_map_q {α : Type}
    (o1 : Option (List (BufRes α) × MonitorBuffer α))
    (o2 : Option (List (BufRes α) × SemaphoreBuffer α)) (h : RunsRel o1 o2) :
    o1.map (fun p => (p.1, p.2.q)) = o2.map (fun p => (p.1, p.2.q)) := by
  rcases o1 with _ | ⟨rs, bf⟩ <;> rcases o2 with _ | ⟨rs2, bf2⟩
  · rfl
  · exact h.elim
  · exact h.elim
  · obtain ⟨hrs, hc2, hq2, hinv2⟩ := h
    simp [hrs, hq2]

/-- Main simulation argument: from related states, running the same
operations with the stop signal unset throughout yields related outcomes
for the two variants. -/
lemma runsRel_aux {α : Type} :
    ∀ (ops : List (BufOp α)) (m : MonitorBuffer α) (s : SemaphoreBuffer α),
    MSRel m s → RunsRel (m.run (noStopM ops)) (s.run (noStopS ops)) := by
  intro ops
  induction ops with
  | nil =>
    intro m s hrel
    exact ⟨rfl, hrel⟩
  | cons o rest ih =>
    intro m s hrel
    obtain ⟨hc, hq, h1, h2, h3⟩ := hrel
    rw [noStopM_cons, noStopS_cons]
    cases o with
    | put x =>
      simp only [MonitorBuffer.run, SemaphoreBuffer.run]
      by_cases hfull : m.q.length = m.capacity
      · have he : s.empty = 0 := by
          rw [hq, hc] at hfull
          omega
        simp [MonitorBuffer.produce, SemaphoreBuffer.produce, hfull, he]
        trivial
      · have he : ¬ s.empty = 0 := by
          rw [hq, hc] at hfull
          omega
        have hm : ¬ s.mutex = 0 := by omega
        simp only [MonitorBuffer.produce, SemaphoreBuffer.produce, hfull,
          he, hm, if_false, if_true, ite_false, ite_true]
        apply runsRel_consRes
        apply ih
        refine ⟨by simpa using hc, by simpa using hq, ?_, ?_, ?_⟩ <;> simp <;> omega
    | get =>
      simp only [MonitorBuffer.run, SemaphoreBuffer.run]
      cases hqm : m.q with
      | nil =>
        have hf : s.full = 0 := by
          rw [hqm] at hq
          rw [h2, ← hq]
          rfl
        simp [MonitorBuffer.consume, SemaphoreBuffer.consume, hqm, hf]
        trivial
      | cons y t =>
        have hsq : s.q = y :: t := by rw [← hq, hqm]
        have hf : ¬ s.full = 0 := by
          rw [h2, hsq]
          simp
        have hm : ¬ s.mutex = 0 := by omega
        simp only [MonitorBuffer.consume, SemaphoreBuffer.consume, hqm, hsq,
          hf, hm, if_false, if_true, ite_false, ite_true]
        apply runsRel_consRes
        apply ih
        rw [hsq] at h1 h2
        simp at h1 h2
        refine ⟨by simpa using hc, by simp, ?_, ?_, ?_⟩ <;> simp <;> omega

/-- Claim C1, amended.  For every sequence of Put and Get calls during
which the stop signal is never set, the two implementations produce
identical externally observable outcomes: they block at the same point if
at all, return the same accepted/not-accepted answer for each Put and the
same item-or-failure for each Get, and end with the same buffer contents.
(With the stop signal set they diverge, see the counterexample.) -/
theorem monitor_semaphore_equiv_no_stop :
    ∀ (c : Nat) (ops : List (BufOp Nat)),
    ((MonitorBuffer.init c : MonitorBuffer Nat).run (noStopM ops)).map
        (fun p => (p.1, p.2.q)) =
      ((SemaphoreBuffer.init c : SemaphoreBuffer Nat).run (noStopS ops)).map
        (fun p => (p.1, p.2.q)) := by
  intro c ops
  apply runsRel_map_q
  apply runsRel_aux
  refine ⟨rfl, rfl, ?_, rfl, rfl⟩
  simp [SemaphoreBuffer.init]

/-- Claim C3.  For every sequence of operations run with the stop signal
unset, on either variant starting from a fresh buffer, the items delivered
by the successful Gets followed by the remaining buffer contents are
exactly the items of the successful Puts in order: global FIFO, no
reordering, no duplication, no loss. -/
theorem fifo_no_loss_no_dup :
    (∀ (c : Nat) (ops : List (BufOp Nat)) (rs : List (BufRes Nat))
        (bf : MonitorBuffer Nat),
        (MonitorBuffer.init c : MonitorBuffer Nat).run (noStopM ops) =
            some (rs, bf) →
        getsOf rs ++ bf.q = putsOf rs) ∧
    (∀ (c : Nat) (ops : List (BufOp Nat)) (rs : List (BufRes Nat))
        (bf : SemaphoreBuffer Nat),
        (SemaphoreBuffer.init c : SemaphoreBuffer Nat).run (noStopS ops) =
            some (rs, bf) →
        getsOf rs ++ bf.q = putsOf rs) := by
  constructor
  · intro c ops rs bf h
    have hs := (monitor_run_spec (noStopM ops) (MonitorBuffer.init c) rs bf h).1
    simpa [MonitorBuffer.init] using hs
  · intro c ops rs bf h
    have hs := (sem_run_spec (noStopS ops) (SemaphoreBuffer.init c) rs bf h).1
    simpa [SemaphoreBuffer.init] using hs

/-- Witness for fifo_no_loss_no_dup at a concrete monitor run: two Puts
followed by one Get on a fresh buffer of capacity 2. -/
theorem fifo_no_loss_no_dup_witness :
    getsOf [BufRes.put (some 1), BufRes.put (some 2), BufRes.get (some 1)]
        ++ (⟨2, [2]⟩ : MonitorBuffer Nat).q =
      putsOf [BufRes.put (some 1), BufRes.put (some 2), BufRes.get (some 1)] :=
  fifo_no_loss_no_dup.1 2 [BufOp.put 1, BufOp.put 2, BufOp.get]
    [BufRes.put (some 1), BufRes.put (some 2), BufRes.get (some 1)]
    ⟨2, [2]⟩ (by decide)

/-- Claim C4.  From a fresh buffer of positive capacity, after every
completed run of operations with any cancellation pattern the length of
the buffer stays at most the capacity (it is a Nat, so at least 0), for
both variants; moreover on either variant a successful Get never happens
on an empty queue. -/
theorem capacity_invariant :
    (∀ (c : Nat) (tr : List (BufOp Nat × Bool)) (rs : List (BufRes Nat))
        (bf : MonitorBuffer Nat), 0 < c →
        (MonitorBuffer.init c : MonitorBuffer Nat).run tr = some (rs, bf) →
        bf.q.length ≤ c) ∧
    (∀ (c : Nat) (tr : List (BufOp Nat × Bool × Bool)) (rs : List (BufRes Nat))
        (bf : SemaphoreBuffer Nat), 0 < c →
        (SemaphoreBuffer.init c : SemaphoreBuffer Nat).run tr = some (rs, bf) →
        bf.q.length ≤ c) ∧
    (∀ (m : MonitorBuffer Nat) (s : Bool) (x : Nat) (m2 : MonitorBuffer Nat),
        m.consume s = some (some x, m2) → m.q ≠ []) ∧
    (∀ (b : SemaphoreBuffer Nat) (c1 c2 : Bool) (x : Nat)
        (b2 : SemaphoreBuffer Nat),
        b.consume c1 c2 = some (some x, b2) → b.q ≠ []) := by
  refine ⟨?_, ?_, ?_, ?_⟩
  · intro c tr rs bf hpos h
    have hs := monitor_run_spec tr (MonitorBuffer.init c) rs bf h
    have hcap := hs.2.1
    have hlen := hs.2.2 (by simp [MonitorBuffer.init])
    simp [MonitorBuffer.init] at hcap
    omega
  · intro c tr rs bf hpos h
    have hs := sem_run_spec tr (SemaphoreBuffer.init c) rs bf h
    have hcap := hs.2.1
    have hinv := hs.2.2 ⟨by simp [SemaphoreBuffer.init],
      by simp [SemaphoreBuffer.init], rfl⟩
    simp [SemaphoreBuffer.init] at hcap
    obtain ⟨h1, h2, h3⟩ := hinv
    omega
  · intro m s x m2 h
    rcases (monitor_consume_spec m s (some x) m2 h).2 with ⟨hn, _⟩ | ⟨y, t, hbq, _, _⟩
    · exact absurd hn (by simp)
    · rw [hbq]
      simp
  · intro b c1 c2 x b2 h
    rcases (sem_consume_spec b c1 c2 (some x) b2 h).2 with ⟨hn, _⟩ | ⟨y, t, hbq, _, _⟩
    · exact absurd hn (by simp)
    · rw [hbq]
      simp

/-- Witness for capacity_invariant at a concrete monitor run: one Put on a
fresh buffer of capacity 1 leaves length 1, at most the capacity. -/
theorem capacity_invariant_witness :
    (⟨1, [7]⟩ : MonitorBuffer Nat).q.length ≤ 1 :=
  capacity_invariant.1 1 [(BufOp.put 7, false)] [BufRes.put (some 7)]
    ⟨1, [7]⟩ (by decide) (by decide)

/-- Claim C8.  For every completed run from a fresh buffer, on either
variant and with any cancellation pattern, the number of successful Puts
(the produced counter) equals the number of successful Gets (the consumed
counter) plus the current buffer length, so their difference is the
buffer length at every quiescent point from session start. -/
theorem produced_minus_consumed_eq_length :
    (∀ (c : Nat) (tr : List (BufOp Nat × Bool)) (rs : List (BufRes Nat))
        (bf : MonitorBuffer Nat),
        (MonitorBuffer.init c : MonitorBuffer Nat).run tr = some (rs, bf) →
        produced_count rs = consumed_count rs + bf.q.length) ∧
    (∀ (c : Nat) (tr : List (BufOp Nat × Bool × Bool)) (rs : List (BufRes Nat))
        (bf : SemaphoreBuffer Nat),
        (SemaphoreBuffer.init c : SemaphoreBuffer Nat).run tr = some (rs, bf) →
        produced_count rs = consumed_count rs + bf.q.length) := by
  constructor
  · intro c tr rs bf h
    have hs := (monitor_run_spec tr (MonitorBuffer.init c) rs bf h).1
    simp [MonitorBuffer.init] at hs
    have := congrArg List.length hs
    simp [List.length_append] at this
    simp [produced_count, consumed_count]
    omega
  · intro c tr rs bf h
    have hs := (sem_run_spec tr (SemaphoreBuffer.init c) rs bf h).1
    simp [SemaphoreBuffer.init] at hs
    have := congrArg List.length hs
    simp [List.length_append] at this
    simp [produced_count, consumed_count]
    omega

/-- Witness for produced_minus_consumed_eq_length at a concrete semaphore
run: two Puts and one Get leave counters 2 and 1 and one held item. -/
theorem produced_minus_consumed_eq_length_witness :
    produced_count [BufRes.put (some 4), BufRes.put (some 6), BufRes.get (some 4)] =
      consumed_count [BufRes.put (some 4), BufRes.put (some 6), BufRes.get (some 4)]
        + (⟨3, [6], 2, 1, 1⟩ : SemaphoreBuffer Nat).q.length :=
  produced_minus_consumed_eq_length.2 3
    [(BufOp.put 4, false, false), (BufOp.put 6, false, false),
      (BufOp.get, false, false)]
    [BufRes.put (some 4), BufRes.put (some 6), BufRes.get (some 4)]
    ⟨3, [6], 2, 1, 1⟩ (by decide)

/-- Claim C5, amended.  The invariant actually maintained by
SemaphoreBuffer is: available empty permits plus buffer length equal the
capacity, available full permits equal the buffer length, and the mutex is
free.  Every completed Put or Get preserves it, including both
cancellation early returns, whose compensating release restores the
already acquired permit.  (The sum stated in the claim, empty + full +
length, exceeds the capacity whenever the buffer is non-empty, see the
counterexample.) -/
theorem permit_conservation :
    (∀ (b : SemaphoreBuffer Nat) (x : Nat) (c1 c2 : Bool) (ok : Bool)
        (b2 : SemaphoreBuffer Nat), SemInv b →
        b.produce x c1 c2 = some (ok, b2) → SemInv b2) ∧
    (∀ (b : SemaphoreBuffer Nat) (c1 c2 : Bool) (r : Option Nat)
        (b2 : SemaphoreBuffer Nat), SemInv b →
        b.consume c1 c2 = some (r, b2) → SemInv b2) :=
  ⟨fun b x c1 c2 ok b2 hb h => semInv_produce b x c1 c2 ok b2 hb h,
    fun b c1 c2 r b2 hb h => semInv_consume b c1 c2 r b2 hb h⟩

/-- Witness for permit_conservation: a successful Put on a fresh buffer of
capacity 2 reaches a state that still satisfies the invariant. -/
theorem permit_conservation_witness :
    SemInv (⟨2, [5], 1, 1, 1⟩ : SemaphoreBuffer Nat) :=
  permit_conservation.1 ⟨2, [], 2, 0, 1⟩ 5 false false true
    ⟨2, [5], 1, 1, 1⟩ (by decide) (by decide)

/-- Claim C10.  In every state reachable by a completed run from a fresh
SemaphoreBuffer, a consume that passes both acquires without cancellation
finds a non-empty queue and returns its head: the defensive empty-queue
branch of the source is unreachable and no such Get returns None. -/
theorem consume_defensive_branch_unreachable :
    ∀ (c : Nat) (tr : List (BufOp Nat × Bool × Bool)) (rs : List (BufRes Nat))
      (bf : SemaphoreBuffer Nat) (r : Option Nat) (bf2 : SemaphoreBuffer Nat),
    (SemaphoreBuffer.init c : SemaphoreBuffer Nat).run tr = some (rs, bf) →
    bf.consume false false = some (r, bf2) →
    ∃ y t, bf.q = y :: t ∧ r = some y := by
  intro c tr rs bf r bf2 hrun hcon
  have hinv := (sem_run_spec tr (SemaphoreBuffer.init c) rs bf hrun).2.2
    ⟨by simp [SemaphoreBuffer.init], by simp [SemaphoreBuffer.init], rfl⟩
  obtain ⟨h1, h2, h3⟩ := hinv
  by_cases hf : bf.full = 0
  · simp [SemaphoreBuffer.consume, hf] at hcon
  · have hm : ¬ bf.mutex = 0 := by omega
    cases hq : bf.q with
    | nil =>
      rw [hq] at h2
      simp at h2
      exact absurd h2 hf
    | cons y t =>
      simp [SemaphoreBuffer.consume, hf, hm, hq] at hcon
      exact ⟨y, t, rfl, hcon.1.symm⟩

/-- Witness for consume_defensive_branch_unreachable: after one Put on a
fresh buffer of capacity 1, the non-cancelled consume returns the held
item 5. -/
theorem consume_defensive_branch_unreachable_witness :
    ∃ y t, (⟨1, [5], 0, 1, 1⟩ : SemaphoreBuffer Nat).q = y :: t ∧
      (some 5 : Option Nat) = some y :=
  consume_defensive_branch_unreachable 1 [(BufOp.put 5, false, false)]
    [BufRes.put (some 5)] ⟨1, [5], 0, 1, 1⟩ (some 5) ⟨1, [], 1, 0, 1⟩
    (by decide) (by decide)
